import Mathlib

/-!
Shallow embedding of the VSDB storage core (sled engine backend).

Sources embedded here:
- `src/common/mod.rs`: the reserved-identifier constants (`RESERVED_ID_CNT`,
  `BIGGEST_RESERVED_ID`, `NULL`), the process-wide base-directory cell and
  `vsdb_set_base_dir`, and the `VsDB` allocation forwarders.
- `src/common/engines/sled_db.rs`: the `SledEngine` operations
  (`alloc_prefix`, `alloc_branch_id`, `alloc_version_id`, `get`, `insert`,
  `remove`, `iter`, `range`), the `PrefixAllocator`, the `SledIter` key
  stripping, and `sled_open`.

Machine integers (`u64` prefixes) are modelled as `Nat` with explicit
big-endian 8-byte encodings; a sled `Tree` is modelled as an association
list of byte-string pairs kept in lexicographic key order, which is the
ordering sled uses for its scans.
-/

namespace VSDB

/-- Byte strings (`&[u8]` / `Vec<u8>` / `IVec`): lists of byte values. -/
abbrev Bytes := List Nat

/-- `PREFIX_SIZ = size_of::<u64>()` from `src/common/mod.rs`. -/
def PREFIX_SIZ : Nat := 8

/-- `const RESERVED_ID_CNT: Prefix = 4096_0000;` from `src/common/mod.rs`.
Note the Rust literal `4096_0000` is forty million nine hundred sixty
thousand. -/
def RESERVED_ID_CNT : Nat := 40960000

/-- `BIGGEST_RESERVED_ID = RESERVED_ID_CNT - 1` from `src/common/mod.rs`. -/
def BIGGEST_RESERVED_ID : Nat := RESERVED_ID_CNT - 1

/-- `NULL = BIGGEST_RESERVED_ID` from `src/common/mod.rs`. -/
def NULL : Nat := BIGGEST_RESERVED_ID

/-- The number of values a `u64` can take; `256 ^ 8 = 2 ^ 64`. -/
def U64 : Nat := 256 ^ 8

/-- `DATA_SET_NUM` from `src/common/engines/sled_db.rs`: the number of
physical area sub-trees. -/
def DATA_SET_NUM : Nat := 8

/-- Big-endian encoding of a natural number into `w` bytes, mirroring
`u64::to_be_bytes` when `w = 8` (the value is truncated mod `256 ^ w`,
matching wrapping machine arithmetic). -/
def toBeBytes : Nat → Nat → Bytes
  | 0, _ => []
  | w + 1, n => toBeBytes w (n / 256) ++ [n % 256]

/-- Big-endian decoding, mirroring the `parse_prefix!` /
`u64::from_be_bytes` macro from `src/common/mod.rs`. -/
def fromBeBytes (l : Bytes) : Nat :=
  l.foldl (fun acc b => acc * 256 + b) 0

/-! ### The prefix allocator (`PrefixAllocator`, `SledEngine::alloc_*`) -/

/-- The single meta-tree cell holding the next-free prefix as 8 big-endian
bytes (`PrefixAllocator` state in the `meta` Db). -/
structure AllocState where
  counter : Bytes

/-- `PrefixAllocator { key: 0_u8.to_be_bytes() }`: the allocator's key in
the meta tree is the single byte `0x00`. -/
def allocatorKey : Bytes := [0]

/-- The allocator cell right after `SledEngine::new()` on a fresh store:
`PrefixAllocator::init` writes `(RESERVED_ID_CNT + Prefix::MIN).to_be_bytes()`
(with `Prefix::MIN = u64::MIN = 0`). -/
def initAllocState : AllocState := ⟨toBeBytes 8 RESERVED_ID_CNT⟩

/-- `SledEngine::alloc_prefix`: sled's `update_and_fetch` applies
`PrefixAllocator::next` (parse, add one, re-encode) to the stored cell,
stores the new bytes, and returns the NEW bytes, which are then parsed with
`parse_prefix!`.  So the returned id is the post-increment counter value. -/
def allocPrefix (s : AllocState) : Nat × AllocState :=
  let nb := toBeBytes 8 (fromBeBytes s.counter + 1)
  (fromBeBytes nb, ⟨nb⟩)

/-- `SledEngine::alloc_branch_id`: `self.alloc_prefix() as BranchID`
(`BranchID = u64 = Prefix`, so the cast is the identity). -/
def allocBranchId (s : AllocState) : Nat × AllocState := allocPrefix s

/-- `SledEngine::alloc_version_id`: `self.alloc_prefix() as VersionID`. -/
def allocVersionId (s : AllocState) : Nat × AllocState := allocPrefix s

/-- Run `n` consecutive `alloc_prefix` calls, collecting the returned
identifiers in order. -/
def allocSeq (s : AllocState) : Nat → List Nat × AllocState
  | 0 => ([], s)
  | n + 1 =>
    let r := allocPrefix s
    let rest := allocSeq r.2 n
    (r.1 :: rest.1, rest.2)

/-- A call to one of the three allocation entry points of the engine. -/
inductive AllocCall
  | pfx
  | branch
  | version
deriving DecidableEq

/-- Run an interleaved sequence of `alloc_prefix` / `alloc_branch_id` /
`alloc_version_id` calls, collecting the returned identifiers in order. -/
def runAllocCalls (s : AllocState) : List AllocCall → List Nat × AllocState
  | [] => ([], s)
  | c :: cs =>
    let r := match c with
      | .pfx => allocPrefix s
      | .branch => allocBranchId s
      | .version => allocVersionId s
    let rest := runAllocCalls r.2 cs
    (r.1 :: rest.1, rest.2)

/-! ### The process-wide base directory (`vsdb_set_base_dir`, `sled_open`) -/

/-- The process-wide globals of `src/common/mod.rs`: the `HAS_INITED`
atomic flag inside `vsdb_set_base_dir` and the `VSDB_BASE_DIR` mutex. -/
structure BaseDirState where
  has_inited : Bool
  base_dir : String

/-- `vsdb_set_base_dir` from `src/common/mod.rs`: `HAS_INITED.swap(true)`
returns the previous flag; if it was already set the call errors and
changes nothing, otherwise the base directory is replaced. -/
def vsdb_set_base_dir (dir : String) (s : BaseDirState) :
    Except String Unit × BaseDirState :=
  if s.has_inited then
    (Except.error "VSDB has been initialized !!", s)
  else
    (Except.ok (), ⟨true, dir⟩)

/-- `sled_open` from `src/common/engines/sled_db.rs`: after opening the Db
it runs `info_omit!(vsdb_set_base_dir(dir))`, i.e. it calls
`vsdb_set_base_dir` with the discovered data directory and discards the
result. -/
def sled_open (dir : String) (s : BaseDirState) : BaseDirState :=
  (vsdb_set_base_dir dir s).2

/-! ### Sled trees, bounds, and the engine operations -/

/-- Lexicographic strict order on byte strings, as sled orders its keys. -/
def lexLt : Bytes → Bytes → Bool
  | _, [] => false
  | [], _ :: _ => true
  | a :: as, b :: bs =>
    if a < b then true
    else if a = b then lexLt as bs
    else false

/-- `std::ops::Bound<&[u8]>`: one side of a range query. -/
inductive Bnd
  | incl (b : Bytes)
  | excl (b : Bytes)
  | unb
deriving DecidableEq

/-- Does a key satisfy a low bound? -/
def bndLoOk : Bnd → Bytes → Bool
  | .incl b, k => !lexLt k b
  | .excl b, k => lexLt b k
  | .unb, _ => true

/-- Does a key satisfy a high bound? -/
def bndHiOk : Bnd → Bytes → Bool
  | .incl b, k => !lexLt b k
  | .excl b, k => lexLt k b
  | .unb, _ => true

/-- A sled `Tree`: an association list of (full key, value) pairs kept in
lexicographic key order. -/
abbrev Tree := List (Bytes × Bytes)

/-- `Tree::get`. -/
def treeGet : Tree → Bytes → Option Bytes
  | [], _ => none
  | (k0, v0) :: t, k => if k = k0 then some v0 else treeGet t k

/-- `Tree::insert` on the ordered model: sorted insertion, replacing an
existing binding of the same key. -/
def treeInsert : Tree → Bytes → Bytes → Tree
  | [], k, v => [(k, v)]
  | (k0, v0) :: t, k, v =>
    if lexLt k k0 then (k, v) :: (k0, v0) :: t
    else if k = k0 then (k, v) :: t
    else (k0, v0) :: treeInsert t k v

/-- `Tree::remove`. -/
def treeRemove : Tree → Bytes → Tree
  | [], _ => []
  | (k0, v0) :: t, k =>
    if k = k0 then treeRemove t k else (k0, v0) :: treeRemove t k

/-- `Tree::range`: the ordered sub-list of entries whose keys satisfy both
bounds. -/
def treeRange (t : Tree) (lo hi : Bnd) : Tree :=
  t.filter fun kv => bndLoOk lo kv.1 && bndHiOk hi kv.1

/-- `Tree::scan_prefix`. -/
def treeScanPrefix (t : Tree) (p : Bytes) : Tree :=
  t.filter fun kv => p.isPrefixOf kv.1

/-- The engine's data areas (`SledEngine::areas`): one sled tree per area
index. -/
structure EngineState where
  areas : Nat → Tree

/-- `SledEngine::get`: look up `meta_prefix ‖ key` in the area tree. -/
def engGet (s : EngineState) (i : Nat) (p k : Bytes) : Option Bytes :=
  treeGet (s.areas i) (p ++ k)

/-- `SledEngine::insert`: insert at `meta_prefix ‖ key`, returning the
prior value. -/
def engInsert (s : EngineState) (i : Nat) (p k v : Bytes) :
    Option Bytes × EngineState :=
  (treeGet (s.areas i) (p ++ k),
   ⟨fun j => if j = i then treeInsert (s.areas i) (p ++ k) v else s.areas j⟩)

/-- `SledEngine::remove`: remove `meta_prefix ‖ key`, returning the prior
value. -/
def engRemove (s : EngineState) (i : Nat) (p k : Bytes) :
    Option Bytes × EngineState :=
  (treeGet (s.areas i) (p ++ k),
   ⟨fun j => if j = i then treeRemove (s.areas i) (p ++ k) else s.areas j⟩)

/-- The bound translation inside `SledEngine::range`: `Included(b)` and
`Excluded(b)` become the same bound kind over `meta_prefix ‖ b`, while
`Unbounded` is passed through UNCHANGED (the `Bound::Unbounded =>
Bound::Unbounded` arms at lines 88 and 101 of `sled_db.rs`). -/
def prependBound (p : Bytes) : Bnd → Bnd
  | .incl b => .incl (p ++ b)
  | .excl b => .excl (p ++ b)
  | .unb => .unb

/-- `SledEngine::range` composed with the `SledIter` item mapping: run the
backend range over the translated bounds and strip the first `PREFIX_SIZ`
bytes of every returned key (`ik[PREFIX_SIZ..]`). -/
def engRange (s : EngineState) (i : Nat) (p : Bytes) (lo hi : Bnd) : Tree :=
  (treeRange (s.areas i) (prependBound p lo) (prependBound p hi)).map
    fun kv => (kv.1.drop PREFIX_SIZ, kv.2)

/-- `SledEngine::iter` composed with the `SledIter` item mapping:
`scan_prefix(meta_prefix)`, stripping the first `PREFIX_SIZ` bytes of
every returned key. -/
def engIter (s : EngineState) (i : Nat) (p : Bytes) : Tree :=
  (treeScanPrefix (s.areas i) p).map
    fun kv => (kv.1.drop PREFIX_SIZ, kv.2)

/-! ### The typed ordered map layer used by the `t_mapx_oc` test

The `MapxOC` implementation itself is not under `src/` (only its test,
`src/basic/mapx_oc/test.rs`, is), so this layer is modelled from the spec
and evaluated over the engine embedding above. -/

/-- Modelled from the spec: the `MapxOC` typed ordered map (its
implementation is missing from `src/`; per §4.4 an ordered map requires an
order-preserving key encoding, fixed-width big-endian for integer keys, so
that backend range scans reflect semantic order).  Encodes a `usize` key as
8 big-endian bytes. -/
def mapxKeyEncode (n : Nat) : Bytes := toBeBytes 8 n

/-- A user-level range bound over integer keys. -/
inductive NBnd
  | incl (n : Nat)
  | excl (n : Nat)
  | unb

/-- Modelled from the spec: encode a user bound for the backend
(`MapxOC::range` forwards each `Included` / `Excluded` / `Unbounded` bound
with the key encoded, per §4.3). -/
def encodeNBnd : NBnd → Bnd
  | .incl n => .incl (mapxKeyEncode n)
  | .excl n => .excl (mapxKeyEncode n)
  | .unb => .unb

/-- Modelled from the spec: `MapxOC::insert` stores the encoded key under
the map's prefix through the engine (§4.3: "Every call prepends the map's
8-byte prefix to `k`"). -/
def mapxOCInsert (s : EngineState) (i : Nat) (p : Bytes) (k : Nat)
    (v : Bytes) : EngineState :=
  (engInsert s i p (mapxKeyEncode k) v).2

/-- Modelled from the spec: `MapxOC::range` issues the backend range over
the encoded bounds. -/
def mapxOCRange (s : EngineState) (i : Nat) (p : Bytes) (lo hi : NBnd) :
    Tree :=
  engRange s i p (encodeNBnd lo) (encodeNBnd hi)

/-- Modelled from the spec: the ordered helper `get_ge(k)` (§4.3), the
first entry of `range(k..)`. -/
def mapxOCGetGe (s : EngineState) (i : Nat) (p : Bytes) (n : Nat) :
    Option (Bytes × Bytes) :=
  (mapxOCRange s i p (NBnd.incl n) NBnd.unb).head?

/-- Modelled from the spec: the ordered helper `get_le(k)` (§4.3), the
last entry of `range(..=k)`. -/
def mapxOCGetLe (s : EngineState) (i : Nat) (p : Bytes) (n : Nat) :
    Option (Bytes × Bytes) :=
  (mapxOCRange s i p NBnd.unb (NBnd.incl n)).getLast?

/-! ### Concrete states used by closed evaluations -/

/-- An 8-byte prefix used in concrete evaluations. -/
def pA : Bytes := [0, 0, 0, 0, 0, 0, 0, 1]

/-- A second, distinct 8-byte prefix. -/
def pB : Bytes := [0, 0, 0, 0, 0, 0, 0, 2]

/-- A third, distinct 8-byte prefix. -/
def pC : Bytes := [0, 0, 0, 0, 0, 0, 0, 3]

/-- An area tree holding one entry under each of the three prefixes
`pA < pB < pC` (in sled's key order). -/
def leakTree : Tree := [(pA ++ [1], [10]), (pB ++ [5], [20]), (pC ++ [9], [30])]

/-- An engine whose areas all hold `leakTree`. -/
def leakState : EngineState := ⟨fun _ => leakTree⟩

/-- An engine state with entries under `pA` and `pB`, for the frame/strip
evaluations. -/
def twoMapState : EngineState := ⟨fun _ => [(pA ++ [1], [10]), (pB ++ [5], [20])]⟩

/-- The empty engine state. -/
def emptyState : EngineState := ⟨fun _ => []⟩

/-- The prefix of the ordered map in the `t_mapx_oc` scenario. -/
def mapPfx : Bytes := toBeBytes 8 40960001

/-- The (stand-in) encoded value stored for key `n` in the scenario. -/
def sampleVal (n : Nat) : Bytes := toBeBytes 8 n

/-- One `MapxOC` insertion of key `k` into area 0 under `mapPfx`. -/
def insSample (s : EngineState) (k : Nat) : EngineState :=
  mapxOCInsert s 0 mapPfx k (sampleVal k)

/-- The store after inserting keys 1, 10, 100, 1000 into the ordered map,
as in `src/basic/mapx_oc/test.rs` lines 70-73. -/
def testState : EngineState :=
  insSample (insSample (insSample (insSample emptyState 1) 10) 100) 1000

/-! ## Lemmas: byte encoding -/

/-- Decoding after appending one byte. -/
theorem fromBeBytes_append_singleton (l : Bytes) (b : Nat) :
    fromBeBytes (l ++ [b]) = fromBeBytes l * 256 + b := by
  simp [fromBeBytes, List.foldl_append]

/-- Round trip of the big-endian codec on in-range values. -/
theorem fromBeBytes_toBeBytes :
    ∀ (w n : Nat), n < 256 ^ w → fromBeBytes (toBeBytes w n) = n := by
  intro w
  induction w with
  | zero =>
    intro n h
    simp only [pow_zero, Nat.lt_one_iff] at h
    simp [toBeBytes, fromBeBytes, h]
  | succ w ih =>
    intro n h
    have hlt : n < 256 * 256 ^ w := by
      rw [Nat.pow_succ] at h
      omega
    have hdiv : n / 256 < 256 ^ w := Nat.div_lt_of_lt_mul hlt
    rw [toBeBytes, fromBeBytes_append_singleton, ih (n / 256) hdiv]
    omega

/-- Length of the big-endian encoding. -/
theorem toBeBytes_length : ∀ (w n : Nat), (toBeBytes w n).length = w := by
  intro w
  induction w with
  | zero => intro n; simp [toBeBytes]
  | succ w ih => intro n; simp [toBeBytes, ih]

/-! ## Lemmas: the allocator -/

/-- One allocation step on a well-formed counter: the stored counter and
the returned identifier both move to the successor. -/
theorem allocPrefix_eq (c : Nat) (h : c + 1 < U64) :
    allocPrefix ⟨toBeBytes 8 c⟩ = (c + 1, ⟨toBeBytes 8 (c + 1)⟩) := by
  have h8 : (256 : Nat) ^ 8 = U64 := rfl
  have hc : c < 256 ^ 8 := by omega
  have hc1 : c + 1 < 256 ^ 8 := by omega
  simp [allocPrefix, fromBeBytes_toBeBytes 8 c hc,
    fromBeBytes_toBeBytes 8 (c + 1) hc1]

/-- Full characterisation of a run of `n` allocations from counter value
`c`: the returned identifiers are `c+1, c+2, …, c+n` in order and the
counter ends at `c+n`. -/
theorem allocSeq_spec :
    ∀ (n c : Nat), c + n < U64 →
      (allocSeq ⟨toBeBytes 8 c⟩ n).1 = (List.range n).map (fun i => c + 1 + i) ∧
      (allocSeq ⟨toBeBytes 8 c⟩ n).2.counter = toBeBytes 8 (c + n) := by
  intro n
  induction n with
  | zero => intro c h; simp [allocSeq]
  | succ n ih =>
    intro c h
    have hstep : allocPrefix ⟨toBeBytes 8 c⟩ = (c + 1, ⟨toBeBytes 8 (c + 1)⟩) :=
      allocPrefix_eq c (by omega)
    have ihc := ih (c + 1) (by omega)
    have hcomp : ((fun i => c + 1 + i) ∘ Nat.succ) = (fun i => c + 1 + 1 + i) := by
      funext i
      simp [Function.comp]
      omega
    constructor
    · show (allocPrefix ⟨toBeBytes 8 c⟩).1 ::
          (allocSeq (allocPrefix ⟨toBeBytes 8 c⟩).2 n).1 = _
      rw [hstep]
      simp only [List.range_succ_eq_map, List.map_cons, List.map_map, hcomp]
      rw [ihc.1]
    · show (allocSeq (allocPrefix ⟨toBeBytes 8 c⟩).2 n).2.counter = _
      rw [hstep]
      simp only []
      rw [ihc.2]
      have : c + 1 + n = c + (n + 1) := by omega
      rw [this]

/-- The identifiers returned by a run of allocations are strictly
increasing in call order. -/
theorem allocSeq_pairwise_lt (c n : Nat) (h : c + n < U64) :
    ((allocSeq ⟨toBeBytes 8 c⟩ n).1).Pairwise (· < ·) := by
  rw [(allocSeq_spec n c h).1]
  exact List.Pairwise.map _ (fun a b hab => by omega) (List.pairwise_lt_range n)

/-- Tagged interleavings of the three allocation entry points behave
exactly like plain `alloc_prefix` runs of the same length. -/
theorem runAllocCalls_eq_allocSeq :
    ∀ (cs : List AllocCall) (s : AllocState),
      runAllocCalls s cs = allocSeq s cs.length := by
  intro cs
  induction cs with
  | nil => intro s; rfl
  | cons c cs ih =>
    intro s
    cases c <;>
      simp [runAllocCalls, allocSeq, allocBranchId, allocVersionId, ih]

/-! ## Lemmas: lexicographic order on byte strings -/

/-- `lexLt` is asymmetric. -/
theorem lexLt_asymm :
    ∀ (a b : Bytes), lexLt a b = true → lexLt b a = false := by
  intro a
  induction a with
  | nil =>
    intro b hab
    cases b with
    | nil => simp [lexLt] at hab
    | cons y bs => rfl
  | cons x as ih =>
    intro b hab
    cases b with
    | nil => simp [lexLt] at hab
    | cons y bs =>
      simp only [lexLt] at hab ⊢
      by_cases h1 : x < y
      · have h2 : ¬ y < x := by omega
        have h3 : ¬ y = x := by omega
        simp [h1, h2, h3]
      · by_cases h2 : x = y
        · subst h2
          simp only [h1, if_false, if_pos rfl] at hab
          simp [h1, ih bs hab]
        · simp [h1, h2] at hab

/-- `lexLt` is total on distinct byte strings. -/
theorem lexLt_total :
    ∀ (a b : Bytes), a ≠ b → lexLt a b = true ∨ lexLt b a = true := by
  intro a
  induction a with
  | nil =>
    intro b hne
    cases b with
    | nil => exact absurd rfl hne
    | cons y bs => left; rfl
  | cons x as ih =>
    intro b hne
    cases b with
    | nil => right; rfl
    | cons y bs =>
      rcases Nat.lt_trichotomy x y with h | h | h
      · left
        simp [lexLt, h]
      · subst h
        have hne2 : as ≠ bs := by
          intro he
          exact hne (by rw [he])
        rcases ih bs hne2 with h2 | h2
        · left
          simp [lexLt, h2]
        · right
          simp [lexLt, h2]
      · right
        simp [lexLt, h]

/-- On distinct same-length front segments, the lexicographic comparison of
concatenations is decided by the front segments alone. -/
theorem lexLt_append_of_ne :
    ∀ (a b u w : Bytes), a.length = b.length → a ≠ b →
      lexLt (a ++ u) (b ++ w) = lexLt a b := by
  intro a
  induction a with
  | nil =>
    intro b u w hl hne
    cases b with
    | nil => exact absurd rfl hne
    | cons y bs => simp at hl
  | cons x as ih =>
    intro b u w hl hne
    cases b with
    | nil => simp at hl
    | cons y bs =>
      simp only [List.cons_append, lexLt]
      by_cases h1 : x < y
      · simp [h1]
      · by_cases h2 : x = y
        · subst h2
          have hne2 : as ≠ bs := by
            intro he
            exact hne (by rw [he])
          have hl2 : as.length = bs.length := by
            simpa using hl
          simp [h1, ih bs u w hl2 hne2]
        · simp [h1, h2]

/-! ## Lemmas: sled tree model -/

/-- Inserting one key does not change the lookup of any other key. -/
theorem treeGet_treeInsert_ne (k v k2 : Bytes) :
    ∀ (t : Tree), k2 ≠ k → treeGet (treeInsert t k v) k2 = treeGet t k2 := by
  intro t
  induction t with
  | nil =>
    intro hne
    simp [treeInsert, treeGet, hne]
  | cons kv t ih =>
    intro hne
    obtain ⟨k0, v0⟩ := kv
    simp only [treeInsert]
    by_cases h1 : lexLt k k0 = true
    · simp [h1, treeGet, hne]
    · by_cases h2 : k = k0
      · subst h2
        simp [h1, treeGet, hne]
      · simp [h1, h2, treeGet, ih hne]

/-- Removing one key does not change the lookup of any other key. -/
theorem treeGet_treeRemove_ne (k k2 : Bytes) :
    ∀ (t : Tree), k2 ≠ k → treeGet (treeRemove t k) k2 = treeGet t k2 := by
  intro t
  induction t with
  | nil => intro hne; rfl
  | cons kv t ih =>
    intro hne
    obtain ⟨k0, v0⟩ := kv
    simp only [treeRemove]
    by_cases h1 : k = k0
    · subst h1
      simp [treeGet, hne, ih hne]
    · by_cases h2 : k2 = k0
      · simp [h1, treeGet, h2]
      · simp [h1, treeGet, h2, ih hne]

/-- Two concatenations with distinct same-length front segments are
distinct keys. -/
theorem append_ne_of_ne_front (p1 k1 p2 k2 : Bytes)
    (hl : p1.length = p2.length) (hne : p2 ≠ p1) :
    p2 ++ k2 ≠ p1 ++ k1 := by
  intro he
  exact hne (List.append_inj he hl.symm).1

/-! ## Lemmas: engine operations -/

/-- Frame property of `SledEngine::insert`: a lookup under a different
8-byte prefix (in any area) is unchanged. -/
theorem engGet_engInsert_frame (s : EngineState) (i j : Nat)
    (p1 k1 v p2 k2 : Bytes) (h1 : p1.length = PREFIX_SIZ)
    (h2 : p2.length = PREFIX_SIZ) (hne : p2 ≠ p1) :
    engGet (engInsert s i p1 k1 v).2 j p2 k2 = engGet s j p2 k2 := by
  simp only [engGet, engInsert]
  by_cases hji : j = i
  · subst hji
    simp only [if_pos rfl]
    exact treeGet_treeInsert_ne (p1 ++ k1) v (p2 ++ k2) (s.areas j)
      (append_ne_of_ne_front p1 k1 p2 k2 (h1.trans h2.symm) hne)
  · simp [hji]

/-- Frame property of `SledEngine::remove`: a lookup under a different
8-byte prefix (in any area) is unchanged. -/
theorem engGet_engRemove_frame (s : EngineState) (i j : Nat)
    (p1 k1 p2 k2 : Bytes) (h1 : p1.length = PREFIX_SIZ)
    (h2 : p2.length = PREFIX_SIZ) (hne : p2 ≠ p1) :
    engGet (engRemove s i p1 k1).2 j p2 k2 = engGet s j p2 k2 := by
  simp only [engGet, engRemove]
  by_cases hji : j = i
  · subst hji
    simp only [if_pos rfl]
    exact treeGet_treeRemove_ne (p1 ++ k1) (p2 ++ k2) (s.areas j)
      (append_ne_of_ne_front p1 k1 p2 k2 (h1.trans h2.symm) hne)
  · simp [hji]

/-- Re-prepending the prefix to every item of the prefix-scan iterator
recovers exactly the underlying stored entries. -/
theorem engIter_strip (s : EngineState) (i : Nat) (p : Bytes)
    (hp : p.length = PREFIX_SIZ) :
    (engIter s i p).map (fun kv => (p ++ kv.1, kv.2)) =
      treeScanPrefix (s.areas i) p := by
  unfold engIter
  rw [List.map_map]
  have hid : ∀ kv ∈ treeScanPrefix (s.areas i) p,
      ((fun kv => (p ++ kv.1, kv.2)) ∘ fun kv => (kv.1.drop PREFIX_SIZ, kv.2))
        kv = id kv := by
    intro kv hmem
    obtain ⟨k, v⟩ := kv
    obtain ⟨hmem2, hpref⟩ := List.mem_filter.mp hmem
    obtain ⟨t2, ht⟩ := List.isPrefixOf_iff_prefix.mp hpref
    simp only [Function.comp, id]
    have ht2 : p ++ t2 = k := ht
    rw [← ht2, ← hp, List.drop_left]
  rw [List.map_congr_left hid, List.map_id]

/-- Membership in the range result over translated non-unbounded bounds
forces the entry's 8-byte front segment to equal the scan prefix. -/
theorem treeRange_prepended_mem (t : Tree) (p : Bytes) (lo hi : Bnd)
    (q u v : Bytes) (hp : p.length = PREFIX_SIZ)
    (hq : q.length = PREFIX_SIZ) (hlo : lo ≠ Bnd.unb) (hhi : hi ≠ Bnd.unb)
    (hmem : (q ++ u, v) ∈ treeRange t (prependBound p lo) (prependBound p hi)) :
    q = p := by
  by_contra hne
  obtain ⟨hmem2, hcond⟩ := List.mem_filter.mp hmem
  rw [Bool.and_eq_true] at hcond
  obtain ⟨hloK, hhiK⟩ := hcond
  have hlen : q.length = p.length := hq.trans hp.symm
  have hnep : p ≠ q := fun he => hne he.symm
  rcases lexLt_total q p hne with hlt | hgt
  · cases lo with
    | unb => exact hlo rfl
    | incl b =>
      rw [show prependBound p (Bnd.incl b) = Bnd.incl (p ++ b) from rfl] at hloK
      simp only [bndLoOk, Bool.not_eq_true'] at hloK
      rw [lexLt_append_of_ne q p u b hlen hne] at hloK
      rw [hlt] at hloK
      exact Bool.true_eq_false.mp hloK
    | excl b =>
      rw [show prependBound p (Bnd.excl b) = Bnd.excl (p ++ b) from rfl] at hloK
      simp only [bndLoOk] at hloK
      rw [lexLt_append_of_ne p q b u hlen.symm hnep] at hloK
      rw [lexLt_asymm q p hlt] at hloK
      exact Bool.false_ne_true hloK
  · cases hi with
    | unb => exact hhi rfl
    | incl b =>
      rw [show prependBound p (Bnd.incl b) = Bnd.incl (p ++ b) from rfl] at hhiK
      simp only [bndHiOk, Bool.not_eq_true'] at hhiK
      rw [lexLt_append_of_ne p q b u hlen.symm hnep] at hhiK
      rw [hgt] at hhiK
      exact Bool.true_eq_false.mp hhiK
    | excl b =>
      rw [show prependBound p (Bnd.excl b) = Bnd.excl (p ++ b) from rfl] at hhiK
      simp only [bndHiOk] at hhiK
      rw [lexLt_append_of_ne q p u b hlen hne] at hhiK
      rw [lexLt_asymm p q hgt] at hhiK
      exact Bool.false_ne_true hhiK

/-! ## Claim theorems -/

/-- C1, counterexample: with both bounds `Unbounded`, `SledEngine::range`
passes the bounds to the backend unchanged (it does NOT start at the
prefix nor stop at the next prefix), so the scan for prefix `pB` returns
the entries stored under the distinct 8-byte prefixes `pA` and `pC` as
well — the claim's "a range scan returns no key stored under a different
prefix" is false for every store state holding several prefixes in one
area. -/
theorem c1_counterexample :
    engRange leakState 0 pB Bnd.unb Bnd.unb =
      [([1], [10]), ([5], [20]), ([9], [30])] ∧
    (pA ++ [1], [10]) ∈
      treeRange (leakState.areas 0) (prependBound pB Bnd.unb)
        (prependBound pB Bnd.unb) ∧
    pA ≠ pB ∧ pA.length = PREFIX_SIZ ∧ pB.length = PREFIX_SIZ := by
  decide

/-- C1 (amended): the backend range operation builds its scan bounds by
concatenating the prefix with each `Included`/`Excluded` user bound,
keeping the bound kind; an `Unbounded` bound is passed to the backend
unchanged.  Consequently, whenever BOTH user bounds are non-unbounded,
the scan returns no key stored under a different 8-byte prefix (with an
unbounded bound the scan can leak into adjacent namespaces). -/
theorem c1_range_bounded_no_leak (s : EngineState) (i : Nat) (p : Bytes)
    (lo hi : Bnd) (q u v : Bytes) (hp : p.length = PREFIX_SIZ)
    (hq : q.length = PREFIX_SIZ) (hlo : lo ≠ Bnd.unb) (hhi : hi ≠ Bnd.unb)
    (hmem : (q ++ u, v) ∈
      treeRange (s.areas i) (prependBound p lo) (prependBound p hi)) :
    q = p :=
  treeRange_prepended_mem (s.areas i) p lo hi q u v hp hq hlo hhi hmem

/-- C1 witness: the amended theorem applied at a concrete store. -/
theorem c1_range_bounded_no_leak_witness : pB = pB :=
  c1_range_bounded_no_leak leakState 0 pB (Bnd.incl []) (Bnd.incl [5]) pB
    [5] [20] (by decide) (by decide) (by decide) (by decide) (by decide)

/-- C2, counterexample: the allocator cell of a freshly initialised store
holds `RESERVED_ID_CNT`, but the first `alloc_prefix` call returns
`RESERVED_ID_CNT + 1`, not the pre-increment value: sled's
`update_and_fetch` yields the value AFTER applying
`PrefixAllocator::next`. -/
theorem c2_counterexample :
    fromBeBytes initAllocState.counter = RESERVED_ID_CNT ∧
    (allocPrefix initAllocState).1 = RESERVED_ID_CNT + 1 ∧
    (allocPrefix initAllocState).1 ≠ fromBeBytes initAllocState.counter := by
  decide

/-- C2 (amended): `alloc_prefix` atomically increments the persisted
next-free counter and returns the POST-increment value, so on a freshly
initialised store the first allocation returns `RESERVED + 1` (one more
than the value the counter was initialised to) and after `n` allocations
the counter holds `RESERVED + n`. -/
theorem c2_alloc_post_increment (n : Nat) (h : RESERVED_ID_CNT + n < U64) :
    (allocPrefix initAllocState).1 = RESERVED_ID_CNT + 1 ∧
    (allocSeq initAllocState n).2.counter = toBeBytes 8 (RESERVED_ID_CNT + n) := by
  constructor
  · have h1 : RESERVED_ID_CNT + 1 < U64 := by decide
    rw [show initAllocState = ⟨toBeBytes 8 RESERVED_ID_CNT⟩ from rfl,
      allocPrefix_eq RESERVED_ID_CNT h1]
  · exact (allocSeq_spec n RESERVED_ID_CNT h).2

/-- C2 witness: the amended theorem at `n = 3`. -/
theorem c2_alloc_post_increment_witness :
    (allocPrefix initAllocState).1 = RESERVED_ID_CNT + 1 ∧
    (allocSeq initAllocState 3).2.counter =
      toBeBytes 8 (RESERVED_ID_CNT + 3) :=
  c2_alloc_post_increment 3 (by decide)

/-- C3, counterexample: the Rust constant is `4096_0000`, i.e.
40 960 000, so the reserved range does not contain exactly 40 000 000
values and `NULL` is not `40 000 000 - 1`. -/
theorem c3_counterexample :
    RESERVED_ID_CNT = 40960000 ∧ RESERVED_ID_CNT ≠ 40000000 ∧
    NULL ≠ 40000000 - 1 := by
  decide

/-- C3 (amended): the reserved identifier range contains exactly
40 960 000 values: on first open the meta sub-tree's allocator key (the
single byte `0x00`) is initialised to 40 960 000 encoded as 8 big-endian
bytes, and the `NULL` sentinel equals 40 960 000 minus 1. -/
theorem c3_reserved_range :
    allocatorKey = [0] ∧
    initAllocState.counter = toBeBytes 8 RESERVED_ID_CNT ∧
    (initAllocState.counter).length = 8 ∧
    fromBeBytes initAllocState.counter = 40960000 ∧
    RESERVED_ID_CNT = 40960000 ∧
    NULL = RESERVED_ID_CNT - 1 := by
  decide

/-- C4: `alloc_branch_id` and `alloc_version_id` are aliases of
`alloc_prefix` drawing from the same monotone counter, so every
interleaved sequence of calls across the three entry points returns
pairwise distinct identifiers (as long as the `u64` counter does not wrap
around). -/
theorem c4_alloc_aliases_distinct (cs : List AllocCall) (c : Nat)
    (h : c + cs.length < U64) :
    allocBranchId = allocPrefix ∧ allocVersionId = allocPrefix ∧
    (runAllocCalls ⟨toBeBytes 8 c⟩ cs).1.Pairwise (· ≠ ·) := by
  refine ⟨rfl, rfl, ?_⟩
  rw [runAllocCalls_eq_allocSeq]
  exact (allocSeq_pairwise_lt c cs.length h).imp (fun hlt => Nat.ne_of_lt hlt)

/-- C4 witness: a concrete interleaving of the three call kinds starting
from the freshly initialised counter. -/
theorem c4_alloc_aliases_distinct_witness :
    allocBranchId = allocPrefix ∧ allocVersionId = allocPrefix ∧
    (runAllocCalls ⟨toBeBytes 8 RESERVED_ID_CNT⟩
      [AllocCall.branch, AllocCall.version, AllocCall.pfx]).1.Pairwise (· ≠ ·) :=
  c4_alloc_aliases_distinct [AllocCall.branch, AllocCall.version, AllocCall.pfx]
    RESERVED_ID_CNT (by decide)

/-- C5: every `alloc_prefix` call returns a value strictly greater than
the value returned by every earlier call in the run (so no prefix is ever
returned twice or recycled), as long as the `u64` counter does not wrap
around. -/
theorem c5_alloc_strictly_increasing (c n : Nat) (h : c + n < U64) :
    ((allocSeq ⟨toBeBytes 8 c⟩ n).1).Pairwise (· < ·) :=
  allocSeq_pairwise_lt c n h

/-- C5 witness: four allocations from the freshly initialised counter. -/
theorem c5_alloc_strictly_increasing_witness :
    ((allocSeq ⟨toBeBytes 8 RESERVED_ID_CNT⟩ 4).1).Pairwise (· < ·) :=
  c5_alloc_strictly_increasing RESERVED_ID_CNT 4 (by decide)

/-- C6: a call to `vsdb_set_base_dir` on the not-yet-initialised process
state succeeds, replaces the stored base directory and marks the state
initialised; every call on an initialised state returns an error and
leaves the state unchanged. -/
theorem c6_set_base_dir_once (s s2 : BaseDirState) (dir dir2 : String)
    (h : s.has_inited = false) (h2 : s2.has_inited = true) :
    vsdb_set_base_dir dir s = (Except.ok (), ⟨true, dir⟩) ∧
    (vsdb_set_base_dir dir s).2.has_inited = true ∧
    vsdb_set_base_dir dir2 s2 =
      (Except.error "VSDB has been initialized !!", s2) := by
  refine ⟨?_, ?_, ?_⟩ <;> simp [vsdb_set_base_dir, h, h2]

/-- C6 witness: a fresh state accepts the first set; an initialised state
refuses a second one unchanged. -/
theorem c6_set_base_dir_once_witness :
    vsdb_set_base_dir "/a" ⟨false, "/tmp/.vsdb"⟩ =
      (Except.ok (), ⟨true, "/a"⟩) ∧
    (vsdb_set_base_dir "/a" ⟨false, "/tmp/.vsdb"⟩).2.has_inited = true ∧
    vsdb_set_base_dir "/b" ⟨true, "/a"⟩ =
      (Except.error "VSDB has been initialized !!", ⟨true, "/a"⟩) :=
  c6_set_base_dir_once ⟨false, "/tmp/.vsdb"⟩ ⟨true, "/a"⟩ "/a" "/b" rfl rfl

/-- C7: `get`, `insert` and `remove` act on the backend key
`prefix ‖ user-key`; an insert or remove under one 8-byte prefix leaves
every lookup under any different 8-byte prefix (in any area) unchanged;
and re-prepending the prefix to every pair produced by the iterator
(which strips the first `PREFIX_SIZ` bytes of each key) recovers exactly
the stored entries of the prefix scan. -/
theorem c7_prefixed_ops_frame (s : EngineState) (i j : Nat)
    (p1 k1 v p2 k2 : Bytes) (h1 : p1.length = PREFIX_SIZ)
    (h2 : p2.length = PREFIX_SIZ) (hne : p2 ≠ p1) :
    engGet s i p1 k1 = treeGet (s.areas i) (p1 ++ k1) ∧
    (engInsert s i p1 k1 v).1 = treeGet (s.areas i) (p1 ++ k1) ∧
    (engRemove s i p1 k1).1 = treeGet (s.areas i) (p1 ++ k1) ∧
    engGet (engInsert s i p1 k1 v).2 j p2 k2 = engGet s j p2 k2 ∧
    engGet (engRemove s i p1 k1).2 j p2 k2 = engGet s j p2 k2 ∧
    (engIter s i p1).map (fun kv => (p1 ++ kv.1, kv.2)) =
      treeScanPrefix (s.areas i) p1 :=
  ⟨rfl, rfl, rfl,
   engGet_engInsert_frame s i j p1 k1 v p2 k2 h1 h2 hne,
   engGet_engRemove_frame s i j p1 k1 p2 k2 h1 h2 hne,
   engIter_strip s i p1 h1⟩

/-- C7 witness: the theorem at a concrete two-prefix store. -/
theorem c7_prefixed_ops_frame_witness :
    engGet twoMapState 0 pB [5] = treeGet (twoMapState.areas 0) (pB ++ [5]) ∧
    (engInsert twoMapState 0 pB [5] [7]).1 =
      treeGet (twoMapState.areas 0) (pB ++ [5]) ∧
    (engRemove twoMapState 0 pB [5]).1 =
      treeGet (twoMapState.areas 0) (pB ++ [5]) ∧
    engGet (engInsert twoMapState 0 pB [5] [7]).2 0 pA [1] =
      engGet twoMapState 0 pA [1] ∧
    engGet (engRemove twoMapState 0 pB [5]).2 0 pA [1] =
      engGet twoMapState 0 pA [1] ∧
    (engIter twoMapState 0 pB).map (fun kv => (pB ++ kv.1, kv.2)) =
      treeScanPrefix (twoMapState.areas 0) pB :=
  c7_prefixed_ops_frame twoMapState 0 0 pB [5] [7] pA [1] (by decide)
    (by decide) (by decide)

/-- C8: on the store holding exactly the keys 1, 10, 100, 1000 of the
ordered map, `range(0..1)` is empty, the first element of
`range(12..999)` has key 100, `range((Excluded(100), Included(999)))` is
empty, and `get_ge(99)`, `get_ge(100)`, `get_le(100)`, `get_le(101)` all
return the entry with key 100 (the scenario of
`src/basic/mapx_oc/test.rs` lines 70-89, evaluated over the engine
embedding with the spec-modelled `MapxOC` layer). -/
theorem c8_ordered_map_queries :
    mapxOCRange testState 0 mapPfx (NBnd.incl 0) (NBnd.excl 1) = [] ∧
    (mapxOCRange testState 0 mapPfx (NBnd.incl 12) (NBnd.excl 999)).head? =
      some (mapxKeyEncode 100, sampleVal 100) ∧
    mapxOCRange testState 0 mapPfx (NBnd.excl 100) (NBnd.incl 999) = [] ∧
    mapxOCGetGe testState 0 mapPfx 99 = some (mapxKeyEncode 100, sampleVal 100) ∧
    mapxOCGetGe testState 0 mapPfx 100 = some (mapxKeyEncode 100, sampleVal 100) ∧
    mapxOCGetLe testState 0 mapPfx 100 = some (mapxKeyEncode 100, sampleVal 100) ∧
    mapxOCGetLe testState 0 mapPfx 101 = some (mapxKeyEncode 100, sampleVal 100) := by
  decide

/-- C9: `sled_open` itself invokes `vsdb_set_base_dir` (the
`info_omit!(vsdb_set_base_dir(dir))` line), so after the store has been
opened the process state is marked initialised and every later
`vsdb_set_base_dir` call fails and changes nothing — even if it is user
code's first call in the process. -/
theorem c9_open_blocks_set_base_dir (dir dir2 : String) (s : BaseDirState) :
    (sled_open dir s).has_inited = true ∧
    vsdb_set_base_dir dir2 (sled_open dir s) =
      (Except.error "VSDB has been initialized !!", sled_open dir s) := by
  cases hs : s.has_inited <;>
    exact ⟨by simp [sled_open, vsdb_set_base_dir, hs],
           by simp [sled_open, vsdb_set_base_dir, hs]⟩

/-- C10: every identifier returned by an allocation run starting from the
freshly initialised counter is strictly greater than the `NULL` sentinel
(`RESERVED_ID_CNT - 1`), as long as the `u64` counter does not wrap
around. -/
theorem c10_alloc_ids_above_null (n : Nat) (h : RESERVED_ID_CNT + n < U64)
    (x : Nat) (hm : x ∈ (allocSeq initAllocState n).1) : NULL < x := by
  have hspec := (allocSeq_spec n RESERVED_ID_CNT h).1
  rw [show initAllocState = ⟨toBeBytes 8 RESERVED_ID_CNT⟩ from rfl, hspec] at hm
  simp only [List.mem_map, List.mem_range] at hm
  obtain ⟨i, hi, hx⟩ := hm
  simp only [NULL, BIGGEST_RESERVED_ID, RESERVED_ID_CNT] at *
  omega

/-- C10 witness: the first identifier of a fresh two-allocation run is
above `NULL`. -/
theorem c10_alloc_ids_above_null_witness : NULL < 40960001 :=
  c10_alloc_ids_above_null 2 (by decide) 40960001 (by decide)

end VSDB
